import Mathlib

/-!
Shallow embedding of the log-analyzer core (`services.py`, class `LogService`)
and verification of the specification's claims about it.

Modelling conventions:
* Python `datetime` values are represented by their mixed-radix `Nat` encoding
  `((((year*13 + month)*32 + day)*24 + hour)*60 + minute)*60 + second`, which is
  order-isomorphic to the lexicographic order `datetime` uses; every claim only
  compares timestamps, so this encoding is faithful.
* `datetime.strptime(s, "%Y-%m-%d %H:%M:%S")` is modelled by `parseTimestamp`,
  following CPython's `_strptime` regex (`%Y` = four digits, `%m`/`%d`/`%H`/
  `%M`/`%S` = one or two digits with the documented ranges, a run of
  whitespace for the literal space, whole string consumed) followed by the
  `datetime` constructor's range validation (year ≥ 1, day within month,
  second ≤ 59).  ASCII digits only.
* Python lists are `List`, dicts are association lists in insertion order;
  `str.split('\t')` is `pySplitTab`, `str.strip()` is `pyStrip` (structural
  recursions over the character list, so the kernel can evaluate them).
* Methods of `LogService` that the claims treat as state transformers are
  given explicit state passing: they take the store and return it along with
  their result, mirroring the absence of any field assignment in the source.
-/

namespace LogAnalyzer

/-- `models.LogEntry`: one parsed log line. -/
structure LogEntry where
  log_id : String
  timestamp : Nat
  level : String
  component : String
  message : String
deriving Repr, DecidableEq

/-- Value of an ASCII digit character, `none` on a non-digit (model of `\d`). -/
def digitVal (c : Char) : Option Nat :=
  if c.isDigit then some (c.toNat - 48) else none

/-- Leap-year rule used by `datetime`'s day-of-month validation. -/
def isLeapYear (y : Nat) : Bool :=
  y % 4 == 0 && (y % 100 != 0 || y % 400 == 0)

/-- Number of days in a month, as validated by the `datetime` constructor. -/
def daysInMonth (y m : Nat) : Nat :=
  if m == 2 then (if isLeapYear y then 29 else 28)
  else if m == 4 || m == 6 || m == 9 || m == 11 then 30
  else 31

/-- Parse a one- or two-digit numeric field, as CPython's `_strptime` regex
alternations do: when two digits are present the two-digit value (bounded by
`maxTwo`) is the only viable match, otherwise the single digit is taken;
`minVal` is 1 for `%m`/`%d` (which reject `0` and `00`) and 0 otherwise. -/
def parseField (maxTwo minVal : Nat) : List Char → Option (Nat × List Char)
  | a :: b :: rest =>
    match digitVal a with
    | none => none
    | some da =>
      match digitVal b with
      | some db =>
        let v := da * 10 + db
        if minVal ≤ v ∧ v ≤ maxTwo then some (v, rest) else none
      | none =>
        if minVal ≤ da then some (da, b :: rest) else none
  | [a] =>
    match digitVal a with
    | none => none
    | some da => if minVal ≤ da then some (da, []) else none
  | [] => none

/-- Consume one literal character. -/
def expectChar (c : Char) : List Char → Option (List Char)
  | a :: rest => if a = c then some rest else none
  | [] => none

/-- Consume a nonempty run of whitespace (`\s+`, the translation of the
literal space in the format string). -/
def skipWs : List Char → Option (List Char)
  | a :: rest =>
    if a.isWhitespace then some (rest.dropWhile Char.isWhitespace) else none
  | [] => none

/-- Mixed-radix encoding of a date-time; order-isomorphic to `datetime`'s
lexicographic comparison for in-range components. -/
def encodeDateTime (y m d h mi s : Nat) : Nat :=
  ((((y * 13 + m) * 32 + d) * 24 + h) * 60 + mi) * 60 + s

/-- Model of `datetime.strptime(s, "%Y-%m-%d %H:%M:%S")`: `some` (the encoded
date-time) exactly when CPython accepts the string, `none` when it raises
`ValueError`. -/
def parseTimestamp (s : String) : Option Nat :=
  match s.toList with
  | y1 :: y2 :: y3 :: y4 :: cs1 =>
    match digitVal y1, digitVal y2, digitVal y3, digitVal y4 with
    | some d1, some d2, some d3, some d4 =>
      let y := ((d1 * 10 + d2) * 10 + d3) * 10 + d4
      match expectChar '-' cs1 with
      | none => none
      | some cs2 =>
        match parseField 12 1 cs2 with
        | none => none
        | some (m, cs3) =>
          match expectChar '-' cs3 with
          | none => none
          | some cs4 =>
            match parseField 31 1 cs4 with
            | none => none
            | some (d, cs5) =>
              match skipWs cs5 with
              | none => none
              | some cs6 =>
                match parseField 23 0 cs6 with
                | none => none
                | some (h, cs7) =>
                  match expectChar ':' cs7 with
                  | none => none
                  | some cs8 =>
                    match parseField 59 0 cs8 with
                    | none => none
                    | some (mi, cs9) =>
                      match expectChar ':' cs9 with
                      | none => none
                      | some cs10 =>
                        match parseField 61 0 cs10 with
                        | none => none
                        | some (sec, cs11) =>
                          if cs11 = [] then
                            if 1 ≤ y ∧ d ≤ daysInMonth y m ∧ sec ≤ 59 then
                              some (encodeDateTime y m d h mi sec)
                            else none
                          else none
    | _, _, _, _ => none
  | _ => none

/-- Split a character list at every occurrence of `sep`, keeping empty
pieces — the semantics of Python's `str.split(sep)` for a one-character
separator (structurally recursive so that concrete inputs evaluate). -/
def splitChar (sep : Char) : List Char → List (List Char)
  | [] => [[]]
  | c :: rest =>
    match splitChar sep rest with
    | [] => [[]]
    | p :: ps => if c = sep then [] :: p :: ps else (c :: p) :: ps

/-- Python `line.split('\t')`. -/
def pySplitTab (s : String) : List String :=
  (splitChar '\t' s.data).map String.mk

/-- Remove leading and trailing whitespace from a character list. -/
def trimChars (cs : List Char) : List Char :=
  ((cs.dropWhile Char.isWhitespace).reverse.dropWhile Char.isWhitespace).reverse

/-- Python `s.strip()`. -/
def pyStrip (s : String) : String :=
  String.mk (trimChars s.data)

/-- The two failure kinds of `LogService._parse_log_line` (the two distinct
`ValueError`s it raises), named as in the spec's error taxonomy. -/
inductive ParseError where
  | MalformedLine (fieldCount : Nat)
  | InvalidTimestamp (raw : String)
deriving Repr, DecidableEq

/-- `LogService._parse_log_line(line, filename, line_num)`. -/
def _parse_log_line (line filename : String) (line_num : Nat) :
    Except ParseError LogEntry :=
  let parts := pySplitTab line
  if parts.length < 4 then
    .error (.MalformedLine parts.length)
  else
    let timestamp_str := parts.getD 0 ""
    let level := pyStrip (parts.getD 1 "")
    let component := pyStrip (parts.getD 2 "")
    let message := pyStrip (parts.getD 3 "")
    match parseTimestamp timestamp_str with
    | none => .error (.InvalidTimestamp timestamp_str)
    | some timestamp =>
      .ok { log_id := filename ++ "_" ++ toString line_num
            timestamp := timestamp
            level := level
            component := component
            message := message }

/-- The per-file loop of `LogService._parse_log_file`: enumerate raw lines,
strip each, skip empties, parse the rest, drop lines whose parse raises
(warning only), append the records in order. -/
def _parse_log_file (lines : List String) (stem : String) : List LogEntry :=
  lines.enum.filterMap fun p =>
    let line := pyStrip p.2
    if line.isEmpty then none
    else
      match _parse_log_line line stem p.1 with
      | .ok e => some e
      | .error _ => none

/-- The sort key relation of `sorted(filtered_logs, key=lambda x: x.timestamp)`:
compare records by timestamp. -/
def timeLe (a b : LogEntry) : Prop := a.timestamp ≤ b.timestamp

instance : DecidableRel timeLe := fun a b => Nat.decLe a.timestamp b.timestamp

instance : IsTotal LogEntry timeLe := ⟨fun a b => Nat.le_total a.timestamp b.timestamp⟩

instance : IsTrans LogEntry timeLe := ⟨fun _ _ _ => Nat.le_trans⟩

/-- The mutable state of a `LogService`: the full record list and the three
derived indexes (dicts modelled as insertion-ordered association lists). -/
structure LogStore where
  logs : List LogEntry
  log_index : List (String × LogEntry)
  component_index : List (String × List LogEntry)
  level_index : List (String × List LogEntry)
deriving Repr, DecidableEq

/-- Python truthiness of an `Optional[str]`: `None` and `""` are falsy. -/
def strTruthy : Option String → Bool
  | none => false
  | some s => !s.isEmpty

/-- `LogService.filter_logs(level, component, start_time, end_time)`: the
four sequential list-comprehension passes over a copy of `self.logs`.  The
method assigns no field of `self`, so the store is returned unchanged. -/
def filter_logs (store : LogStore) (level component : Option String)
    (start_time end_time : Option Nat) : List LogEntry × LogStore :=
  let filtered := store.logs
  let filtered := if strTruthy level then
      filtered.filter (fun log => log.level == level.getD "")
    else filtered
  let filtered := if strTruthy component then
      filtered.filter (fun log => log.component == component.getD "")
    else filtered
  let filtered := if start_time.isSome then
      filtered.filter (fun log => decide (start_time.getD 0 ≤ log.timestamp))
    else filtered
  let filtered := if end_time.isSome then
      filtered.filter (fun log => decide (log.timestamp ≤ end_time.getD 0))
    else filtered
  (filtered, store)

/-- The result record of `LogService.get_statistics`. -/
structure Statistics where
  total_entries : Nat
  level_counts : List (String × Nat)
  component_counts : List (String × Nat)
  earliest : Option Nat
  latest : Option Nat
deriving Repr, DecidableEq

/-- One `defaultdict(int)` increment `counts[key] += 1` on an
insertion-ordered dict. -/
def incrCount (counts : List (String × Nat)) (key : String) :
    List (String × Nat) :=
  if counts.any (fun p => p.1 == key) then
    counts.map (fun p => if p.1 == key then (p.1, p.2 + 1) else p)
  else counts ++ [(key, 1)]

/-- The aggregation body of `LogService.get_statistics`, applied to the
already-filtered record list: per-level and per-component counts, and the
earliest/latest timestamps read off a stable sort by timestamp (`None` when
the list is empty). -/
def computeStats (filtered_logs : List LogEntry) : Statistics :=
  let level_counts :=
    filtered_logs.foldl (fun c log => incrCount c log.level) []
  let component_counts :=
    filtered_logs.foldl (fun c log => incrCount c log.component) []
  if filtered_logs.isEmpty then
    { total_entries := filtered_logs.length
      level_counts := level_counts
      component_counts := component_counts
      earliest := none
      latest := none }
  else
    let sorted_logs := filtered_logs.insertionSort timeLe
    { total_entries := filtered_logs.length
      level_counts := level_counts
      component_counts := component_counts
      earliest := sorted_logs.head?.map (fun e => e.timestamp)
      latest := sorted_logs.getLast?.map (fun e => e.timestamp) }

/-- `LogService.get_statistics(start_time, end_time)`: filter (level and
component criteria absent), then aggregate.  No field of `self` is assigned,
so the store is returned unchanged. -/
def get_statistics (store : LogStore) (start_time end_time : Option Nat) :
    Statistics × LogStore :=
  let filtered_logs := (filter_logs store none none start_time end_time).1
  (computeStats filtered_logs, store)

/-- `LogService.paginate(items, page, page_size)`: ceiling-divide for the
page count and slice `items[start_idx:end_idx]` (Python slices clip to the
list bounds).  No field of `self` is assigned, so the store is returned
unchanged. -/
def paginate (store : LogStore) (items : List LogEntry)
    (page page_size : Nat) : (List LogEntry × Nat) × LogStore :=
  let total_pages := (items.length + page_size - 1) / page_size
  let start_idx := (page - 1) * page_size
  let end_idx := start_idx + page_size
  (((items.drop start_idx).take (end_idx - start_idx), total_pages), store)

/-! ### Helper definitions for stating and witnessing the claims -/

/-- The message of a successfully parsed line, `none` on a parse failure. -/
def messageOf : Except ParseError LogEntry → Option String
  | .ok e => some e.message
  | .error _ => none

/-- The four filter criteria as one conjunctive predicate; a conjunct is
vacuously true when its criterion is absent (Python-falsy: `None`, or the
empty string for the two string criteria). -/
def matchesCriteria (level component : Option String)
    (start_time end_time : Option Nat) (log : LogEntry) : Bool :=
  (!strTruthy level || log.level == level.getD "") &&
  (!strTruthy component || log.component == component.getD "") &&
  (!start_time.isSome || decide (start_time.getD 0 ≤ log.timestamp)) &&
  (!end_time.isSome || decide (log.timestamp ≤ end_time.getD 0))

/-- Sum of the values of a counts dict. -/
def sumVals (c : List (String × Nat)) : Nat := (c.map Prod.snd).sum

/-- A concrete record used by witnesses. -/
def sampleEntry (ts : Nat) : LogEntry :=
  { log_id := "s_0", timestamp := ts, level := "INFO"
    component := "UserAuth", message := "ok" }

/-- A concrete store used by witnesses. -/
def sampleStore : LogStore :=
  { logs := [sampleEntry 5, sampleEntry 7]
    log_index := [("s_0", sampleEntry 5)]
    component_index := [("UserAuth", [sampleEntry 5, sampleEntry 7])]
    level_index := [("INFO", [sampleEntry 5, sampleEntry 7])] }

/-! ### Claims -/

/-- C8: for every store state and every argument choice, the read operations
`filter_logs`, `get_statistics` and `paginate` leave the store — its record
list and all three indexes — unchanged. -/
theorem read_ops_leave_store_unchanged (store : LogStore)
    (level component : Option String) (start_time end_time : Option Nat)
    (items : List LogEntry) (page page_size : Nat) :
    (filter_logs store level component start_time end_time).2 = store ∧
    (get_statistics store start_time end_time).2 = store ∧
    (paginate store items page page_size).2 = store :=
  ⟨rfl, rfl, rfl⟩

/-- C9: an empty-string level or component criterion is Python-falsy, so
`filter_logs` treats it exactly like an absent criterion: with both string
criteria the empty string and no time bounds it returns every record of the
store, whatever the records' own (possibly empty) levels and components. -/
theorem filter_logs_empty_string_ignored (store : LogStore)
    (start_time end_time : Option Nat) :
    (filter_logs store (some "") (some "") start_time end_time).1 =
      (filter_logs store none none start_time end_time).1 ∧
    (filter_logs store (some "") (some "") none none).1 = store.logs :=
  ⟨rfl, rfl⟩

-- An inverted time range kills the record list: nothing passes both bounds.
theorem filter_ge_le_empty (xs : List LogEntry) (st et : Nat) (h : et < st) :
    (xs.filter (fun log => decide (st ≤ log.timestamp))).filter
      (fun log => decide (log.timestamp ≤ et)) = [] := by
  rw [List.filter_eq_nil_iff]
  intro a ha
  simp only [List.mem_filter, decide_eq_true_eq] at ha ⊢
  omega

/-- C10: calling `filter_logs` directly with `start_time` strictly after
`end_time` (bypassing the boundary validation) does not fail: it returns the
empty list for every store state and leaves the store unchanged. -/
theorem filter_logs_inverted_range (store : LogStore)
    (level component : Option String) (start_time end_time : Nat)
    (h : end_time < start_time) :
    (filter_logs store level component (some start_time) (some end_time)).1
      = [] ∧
    (filter_logs store level component (some start_time) (some end_time)).2
      = store := by
  refine ⟨?_, rfl⟩
  simp only [filter_logs, Option.isSome_some, if_true]
  exact filter_ge_le_empty _ _ _ h

/-- C10 witness: concrete application on a two-record store with
`start_time = 10 > 5 = end_time`. -/
theorem filter_logs_inverted_range_witness :
    (filter_logs sampleStore none none (some 10) (some 5)).1 = [] ∧
    (filter_logs sampleStore none none (some 10) (some 5)).2 = sampleStore :=
  filter_logs_inverted_range sampleStore none none 10 5 (by decide)

/-- C5: for `page ≥ 1` and `page_size ≥ 1`, `paginate` reports
`total_pages = ⌈length / page_size⌉` (ceiling division, hence `0` for an
empty input, characterised by its Galois connection with multiplication) and
returns the slice from index `(page−1)·page_size` of length at most
`page_size`, clipped to the list — in particular the empty slice, with no
failure, whenever the start index is at or past the end. -/
theorem paginate_spec (store : LogStore) (items : List LogEntry)
    (page page_size : Nat) (_hpage : 1 ≤ page) (hps : 1 ≤ page_size) :
    (paginate store items page page_size).1.2 = items.length ⌈/⌉ page_size ∧
    (∀ c : Nat, (paginate store items page page_size).1.2 ≤ c ↔
      items.length ≤ page_size * c) ∧
    (items.length = 0 → (paginate store items page page_size).1.2 = 0) ∧
    (paginate store items page page_size).1.1 =
      (items.drop ((page - 1) * page_size)).take page_size ∧
    (items.length ≤ (page - 1) * page_size →
      (paginate store items page page_size).1.1 = []) := by
  have hceil : (paginate store items page page_size).1.2 =
      items.length ⌈/⌉ page_size := rfl
  refine ⟨hceil, ?_, ?_, ?_, ?_⟩
  · intro c
    rw [hceil]
    exact ceilDiv_le_iff_le_mul hps
  · intro h
    rw [hceil, h]
    exact zero_ceilDiv page_size
  · simp only [paginate, Nat.add_sub_cancel_left]
  · intro h
    simp only [paginate, Nat.add_sub_cancel_left]
    rw [List.drop_eq_nil_of_le h, List.take_nil]

/-- C5 witness: page 3 of size 10 against 5 records is the empty slice with
`total_pages = 1`. -/
theorem paginate_witness :
    (paginate sampleStore (List.replicate 5 (sampleEntry 0)) 3 10).1.1 = []
      ∧
    (paginate sampleStore (List.replicate 5 (sampleEntry 0)) 3 10).1.2 = 1 := by
  have h := paginate_spec sampleStore (List.replicate 5 (sampleEntry 0)) 3 10
    (by decide) (by decide)
  refine ⟨h.2.2.2.2 (by decide), ?_⟩
  rw [h.1]
  decide

/-- C6: `_parse_log_line` fails with `MalformedLine` exactly when the line
splits into fewer than four tab-separated fields (whatever the first field
contains — the field-count check comes first), fails with `InvalidTimestamp`
exactly when there are at least four fields but the first does not parse in
the format `YYYY-MM-DD HH:MM:SS`, and otherwise returns a record. -/
theorem parse_line_error_taxonomy (line filename : String) (line_num : Nat) :
    ((∃ n, _parse_log_line line filename line_num =
        .error (.MalformedLine n)) ↔ (pySplitTab line).length < 4) ∧
    ((∃ t, _parse_log_line line filename line_num =
        .error (.InvalidTimestamp t)) ↔
      4 ≤ (pySplitTab line).length ∧
        parseTimestamp ((pySplitTab line).getD 0 "") = none) ∧
    ((∃ e, _parse_log_line line filename line_num = .ok e) ↔
      4 ≤ (pySplitTab line).length ∧
        (parseTimestamp ((pySplitTab line).getD 0 "")).isSome = true) := by
  unfold _parse_log_line
  by_cases h : (pySplitTab line).length < 4
  · simp [h, Nat.not_le.mpr h]
  · simp only [List.getD_eq_getElem?_getD]
    cases hp : parseTimestamp (((pySplitTab line)[0]?).getD "") <;>
      simp [h, hp, Nat.not_lt.mp h]

-- A successful parse stamps the record with `{filename}_{line_num}` built
-- from the raw enumeration index the caller passed in.
theorem parse_ok_log_id {line filename : String} {line_num : Nat}
    {e : LogEntry} (h : _parse_log_line line filename line_num = .ok e) :
    e.log_id = filename ++ "_" ++ toString line_num := by
  unfold _parse_log_line at h
  dsimp only at h
  split at h
  · exact Except.noConfusion h
  · split at h
    · exact Except.noConfusion h
    · cases h
      rfl

/-- C1 counterexample: the scenario file (valid line, blank line, valid
line) yields ids `a_0` and `a_2` — the blank line consumes an enumeration
index — not the `a_0` and `a_1` the claim states. -/
theorem blank_line_index_counterexample :
    (_parse_log_file ["2025-05-07 10:00:00\tINFO\tUserAuth\tlogin ok", "",
        "2025-05-07 10:00:10\tERROR\tPayment\tdeclined"] "a").map
      (fun e => e.log_id) ≠ ["a_0", "a_1"] ∧
    (_parse_log_file ["2025-05-07 10:00:00\tINFO\tUserAuth\tlogin ok", "",
        "2025-05-07 10:00:10\tERROR\tPayment\tdeclined"] "a").map
      (fun e => e.log_id) = ["a_0", "a_2"] :=
  ⟨by decide, by decide⟩

/-- C1 amended: the line index used to build a record's id is the raw
0-based `enumerate` index, advancing on every raw line including blank ones:
a file of a valid line, a blank line and a second valid line yields exactly
the two records parsed at positions 0 and 2, with ids `{stem}_0` and
`{stem}_2`. -/
theorem blank_line_consumes_raw_index (stem l1 l2 : String) (e1 e2 : LogEntry)
    (h1 : (pyStrip l1).isEmpty = false) (h2 : (pyStrip l2).isEmpty = false)
    (p1 : _parse_log_line (pyStrip l1) stem 0 = .ok e1)
    (p2 : _parse_log_line (pyStrip l2) stem 2 = .ok e2) :
    _parse_log_file [l1, "", l2] stem = [e1, e2] ∧
    e1.log_id = stem ++ "_" ++ toString 0 ∧
    e2.log_id = stem ++ "_" ++ toString 2 := by
  refine ⟨?_, parse_ok_log_id p1, parse_ok_log_id p2⟩
  have hblank : (pyStrip "").isEmpty = true := by decide
  have henum : List.enum [l1, "", l2] = [(0, l1), (1, ""), (2, l2)] := rfl
  unfold _parse_log_file
  rw [henum]
  simp [h1, h2, hblank, p1, p2]

/-- The record produced from the scenario's first line. -/
def entryA0 : LogEntry :=
  { log_id := "a_0", timestamp := encodeDateTime 2025 5 7 10 0 0
    level := "INFO", component := "UserAuth", message := "login ok" }

/-- The record produced from the scenario's third raw line. -/
def entryA2 : LogEntry :=
  { log_id := "a_2", timestamp := encodeDateTime 2025 5 7 10 0 10
    level := "ERROR", component := "Payment", message := "declined" }

/-- C1 witness: the amended statement applied to the concrete scenario
file. -/
theorem blank_line_consumes_raw_index_witness :
    _parse_log_file ["2025-05-07 10:00:00\tINFO\tUserAuth\tlogin ok", "",
      "2025-05-07 10:00:10\tERROR\tPayment\tdeclined"] "a"
      = [entryA0, entryA2] ∧
    entryA0.log_id = "a" ++ "_" ++ toString 0 ∧
    entryA2.log_id = "a" ++ "_" ++ toString 2 :=
  blank_line_consumes_raw_index "a"
    "2025-05-07 10:00:00\tINFO\tUserAuth\tlogin ok"
    "2025-05-07 10:00:10\tERROR\tPayment\tdeclined"
    entryA0 entryA2 (by decide) (by decide) (by rfl) (by rfl)

/-- C2 counterexample: on a line whose message part contains a further tab,
the parsed message is only the text up to the fourth tab (`"msg"`, not the
raw remainder `"msg\textra"`); and a message with leading whitespace after
the third tab is trimmed (`"indented msg"`, not `"  indented msg"`). -/
theorem message_not_raw_remainder_counterexample :
    messageOf (_parse_log_line
      "2025-05-07 10:00:00\tINFO\tAuth\tmsg\textra" "f" 0) = some "msg" ∧
    ("msg" : String) ≠ "msg\textra" ∧
    messageOf (_parse_log_line
      "2025-05-07 10:00:00\tINFO\tAuth\t  indented msg" "f" 0)
      = some "indented msg" ∧
    ("indented msg" : String) ≠ "  indented msg" :=
  ⟨by decide, by decide, by decide, by decide⟩

/-- C2 amended: on a successful parse the record's message is the fourth
tab-separated field, trimmed — anything after a fourth tab is dropped — and
level and component are the trimmed second and third fields. -/
theorem message_is_trimmed_fourth_field (line filename : String)
    (line_num : Nat) (e : LogEntry)
    (h : _parse_log_line line filename line_num = .ok e) :
    e.message = pyStrip ((pySplitTab line).getD 3 "") ∧
    e.level = pyStrip ((pySplitTab line).getD 1 "") ∧
    e.component = pyStrip ((pySplitTab line).getD 2 "") := by
  unfold _parse_log_line at h
  dsimp only at h
  split at h
  · exact Except.noConfusion h
  · split at h
    · exact Except.noConfusion h
    · cases h
      exact ⟨rfl, rfl, rfl⟩

/-- The record parsed from the tab-in-message counterexample line. -/
def entryTab : LogEntry :=
  { log_id := "f_0", timestamp := encodeDateTime 2025 5 7 10 0 0
    level := "INFO", component := "Auth", message := "msg" }

/-- C2 witness: the amended statement applied to the tab-in-message line. -/
theorem message_is_trimmed_fourth_field_witness :
    entryTab.message = pyStrip
      ((pySplitTab "2025-05-07 10:00:00\tINFO\tAuth\tmsg\textra").getD 3 "") ∧
    entryTab.level = pyStrip
      ((pySplitTab "2025-05-07 10:00:00\tINFO\tAuth\tmsg\textra").getD 1 "") ∧
    entryTab.component = pyStrip
      ((pySplitTab "2025-05-07 10:00:00\tINFO\tAuth\tmsg\textra").getD 2 "") :=
  message_is_trimmed_fourth_field
    "2025-05-07 10:00:00\tINFO\tAuth\tmsg\textra" "f" 0 entryTab (by rfl)

/-- C3: `filter_logs` returns exactly the records of the store's full list
that satisfy every applied criterion — level equality, component equality,
timestamp ≥ start, timestamp ≤ end, each vacuous when its criterion is
absent — as one conjunctive pass of `List.filter`, which also fixes the
result order to store order and makes the no-match result the empty list
rather than an error. -/
theorem filter_logs_conjunction (store : LogStore)
    (level component : Option String) (start_time end_time : Option Nat) :
    (filter_logs store level component start_time end_time).1 =
      store.logs.filter
        (fun log => matchesCriteria level component start_time end_time log) := by
  cases hl : strTruthy level <;> cases hc : strTruthy component <;>
    cases start_time <;> cases end_time <;>
      simp [filter_logs, matchesCriteria, hl, hc, List.filter_filter,
        Bool.and_comm, Bool.and_left_comm, Bool.and_assoc]

-- Every entry of `incrCount c k` has a key present in `c` or equal to `k`.
theorem incr_fst_mem (c : List (String × Nat)) (k : String) :
    ∀ p ∈ incrCount c k, p.1 = k ∨ p.1 ∈ c.map Prod.fst := by
  intro p hp
  unfold incrCount at hp
  split at hp
  · rcases List.mem_map.mp hp with ⟨q, hq, he⟩
    by_cases h : q.1 = k
    · simp [h] at he
      left
      rw [← he]
    · simp [h] at he
      right
      rw [← he]
      exact List.mem_map_of_mem Prod.fst hq
  · rcases List.mem_append.mp hp with h | h
    · right
      exact List.mem_map_of_mem Prod.fst h
    · left
      simp at h
      rw [h]

-- `incrCount` keeps every count strictly positive.
theorem incr_pos (c : List (String × Nat)) (k : String)
    (hc : ∀ p ∈ c, 0 < p.2) : ∀ p ∈ incrCount c k, 0 < p.2 := by
  intro p hp
  unfold incrCount at hp
  split at hp
  · rcases List.mem_map.mp hp with ⟨q, hq, he⟩
    by_cases h : q.1 = k <;> simp [h] at he <;> rw [← he]
    · exact Nat.succ_pos _
    · exact hc q hq
  · rcases List.mem_append.mp hp with h | h
    · exact hc p h
    · simp at h
      rw [h]
      exact Nat.one_pos

-- `incrCount` keeps the dict's keys distinct.
theorem incr_keys_nodup (c : List (String × Nat)) (k : String)
    (h : (c.map Prod.fst).Nodup) : ((incrCount c k).map Prod.fst).Nodup := by
  unfold incrCount
  split
  · have : (c.map (fun p => if p.1 == k then (p.1, p.2 + 1) else p)).map Prod.fst
        = c.map Prod.fst := by
      rw [List.map_map]
      apply List.map_congr_left
      intro p _
      by_cases hp : p.1 = k <;> simp [hp]
    rw [this]
    exact h
  · rename_i hany
    rw [List.map_append]
    simp only [List.map_cons, List.map_nil]
    rw [List.nodup_append]
    refine ⟨h, List.nodup_singleton k, ?_⟩
    intro a ha
    simp only [List.mem_singleton]
    intro hak
    rw [hak] at ha
    rcases List.mem_map.mp ha with ⟨q, hq, he⟩
    exact hany (List.any_eq_true.mpr ⟨q, hq, by simp [he]⟩)

-- On a dict with distinct keys, one increment adds exactly one to the sum.
theorem incr_sum (c : List (String × Nat)) (k : String)
    (h : (c.map Prod.fst).Nodup) :
    sumVals (incrCount c k) = sumVals c + 1 := by
  induction c with
  | nil => rfl
  | cons p t ih =>
    by_cases hp : p.1 = k
    · have hany : (p :: t).any (fun q => q.1 == k) = true := by
        simp [hp]
      have hknot : ∀ q ∈ t, (q.1 == k) = false := by
        intro q hq
        simp only [List.map_cons, List.nodup_cons] at h
        have := h.1
        simp only [beq_eq_false_iff_ne, ne_eq]
        intro hqk
        exact this (hp ▸ hqk ▸ List.mem_map_of_mem Prod.fst hq)
      unfold incrCount
      rw [if_pos hany]
      have hmap : t.map (fun q => if q.1 == k then (q.1, q.2 + 1) else q) = t := by
        have hid : ∀ q ∈ t, (if q.1 == k then (q.1, q.2 + 1) else q) = id q := by
          intro q hq
          rw [hknot q hq]
          rfl
        rw [List.map_congr_left hid, List.map_id]
      simp only [List.map_cons, hp, beq_self_eq_true, if_true, hmap]
      simp [sumVals, Nat.add_comm, Nat.add_assoc, Nat.add_left_comm]
    · have hstep : incrCount (p :: t) k = p :: incrCount t k := by
        unfold incrCount
        have : (p :: t).any (fun q => q.1 == k) = t.any (fun q => q.1 == k) := by
          simp [hp]
        rw [this]
        by_cases ht : t.any (fun q => q.1 == k) = true
        · rw [if_pos ht, if_pos ht]
          simp [hp]
        · rw [if_neg ht, if_neg ht]
          rfl
      rw [hstep]
      have hnod : (t.map Prod.fst).Nodup := by
        simp only [List.map_cons, List.nodup_cons] at h
        exact h.2
      simp only [sumVals, List.map_cons, List.sum_cons] at *
      rw [ih hnod]
      omega

-- Folding increments over a key list: keys stay distinct and the sum grows
-- by exactly the number of keys folded in.
theorem fold_incr_nodup_sum : ∀ (ks : List String) (c : List (String × Nat)),
    (c.map Prod.fst).Nodup →
    (((ks.foldl incrCount c).map Prod.fst).Nodup ∧
      sumVals (ks.foldl incrCount c) = sumVals c + ks.length)
  | [], _, h => ⟨h, rfl⟩
  | k :: ks, c, h => by
    have h1 := incr_keys_nodup c k h
    have h2 := fold_incr_nodup_sum ks (incrCount c k) h1
    refine ⟨by simpa using h2.1, ?_⟩
    simp only [List.foldl_cons]
    rw [h2.2, incr_sum c k h]
    simp only [List.length_cons]
    omega

-- Every key of the folded dict comes from the initial dict or the key list.
theorem fold_incr_mem : ∀ (ks : List String) (c : List (String × Nat)),
    ∀ p ∈ ks.foldl incrCount c, p.1 ∈ c.map Prod.fst ∨ p.1 ∈ ks
  | [], _ => by
    intro p hp
    left
    exact List.mem_map_of_mem Prod.fst hp
  | k :: ks, c => by
    intro p hp
    simp only [List.foldl_cons] at hp
    rcases fold_incr_mem ks (incrCount c k) p hp with h | h
    · rcases List.mem_map.mp h with ⟨q, hq, he⟩
      rcases incr_fst_mem c k q hq with h' | h'
      · right
        rw [← he, h']
        exact List.mem_cons_self k ks
      · left
        rw [← he]
        exact h'
    · right
      exact List.mem_cons_of_mem k h

-- Folding increments preserves strict positivity of all counts.
theorem fold_incr_pos : ∀ (ks : List String) (c : List (String × Nat)),
    (∀ p ∈ c, 0 < p.2) → ∀ p ∈ ks.foldl incrCount c, 0 < p.2
  | [], _, hc => hc
  | k :: ks, c, hc => by
    simp only [List.foldl_cons]
    exact fold_incr_pos ks (incrCount c k) (incr_pos c k hc)

/-- C4: for every record list handed to the statistics computation, the
level counts sum to `total_entries` and so do the component counts, and each
count map mentions only levels/components that occur in the records, always
with a strictly positive count. -/
theorem stats_counts_invariant (logs : List LogEntry) :
    sumVals (computeStats logs).level_counts
      = (computeStats logs).total_entries ∧
    sumVals (computeStats logs).component_counts
      = (computeStats logs).total_entries ∧
    (∀ p ∈ (computeStats logs).level_counts,
      p.1 ∈ logs.map (fun e => e.level) ∧ 0 < p.2) ∧
    (∀ p ∈ (computeStats logs).component_counts,
      p.1 ∈ logs.map (fun e => e.component) ∧ 0 < p.2) := by
  have hlc : (computeStats logs).level_counts
      = (logs.map (fun e => e.level)).foldl incrCount [] := by
    rw [List.foldl_map]
    unfold computeStats
    split <;> rfl
  have hcc : (computeStats logs).component_counts
      = (logs.map (fun e => e.component)).foldl incrCount [] := by
    rw [List.foldl_map]
    unfold computeStats
    split <;> rfl
  have hte : (computeStats logs).total_entries = logs.length := by
    unfold computeStats
    split <;> rfl
  have hnil : (([] : List (String × Nat)).map Prod.fst).Nodup := List.nodup_nil
  have hposnil : ∀ p ∈ ([] : List (String × Nat)), 0 < p.2 := by
    intro p hp
    exact absurd hp (List.not_mem_nil p)
  refine ⟨?_, ?_, ?_, ?_⟩
  · rw [hlc, hte, (fold_incr_nodup_sum _ [] hnil).2]
    simp [sumVals]
  · rw [hcc, hte, (fold_incr_nodup_sum _ [] hnil).2]
    simp [sumVals]
  · intro p hp
    rw [hlc] at hp
    refine ⟨?_, fold_incr_pos _ [] hposnil p hp⟩
    rcases fold_incr_mem _ [] p hp with h | h
    · simp at h
    · exact h
  · intro p hp
    rw [hcc] at hp
    refine ⟨?_, fold_incr_pos _ [] hposnil p hp⟩
    rcases fold_incr_mem _ [] p hp with h | h
    · simp at h
    · exact h

-- Every element of a sorted list is below its last element.
theorem sorted_le_getLast? :
    ∀ {l : List LogEntry}, l.Sorted timeLe → ∀ x ∈ l, ∀ {b : LogEntry},
      l.getLast? = some b → timeLe x b := by
  intro l
  induction l with
  | nil => intro _ x hx; exact absurd hx (List.not_mem_nil x)
  | cons a t ih =>
    intro hs x hx b hb
    cases t with
    | nil =>
      simp only [List.getLast?_singleton, Option.some.injEq] at hb
      simp only [List.mem_singleton] at hx
      rw [hx, ← hb]
      exact Nat.le_refl _
    | cons c t' =>
      rw [List.getLast?_cons_cons] at hb
      rcases List.mem_cons.mp hx with rfl | hx'
      · have hbmem : b ∈ c :: t' := by
          rw [List.getLast?_eq_getLast (c :: t') (by simp)] at hb
          injection hb with hb'
          rw [← hb']
          exact List.getLast_mem _
        exact List.rel_of_sorted_cons hs b hbmem
      · exact ih hs.of_cons x hx' hb

-- Every element of a sorted list is above its head.
theorem sorted_head?_le {l : List LogEntry} (hs : l.Sorted timeLe)
    {x : LogEntry} (hx : x ∈ l) {a : LogEntry} (ha : l.head? = some a) :
    timeLe a x := by
  cases l with
  | nil => exact absurd hx (List.not_mem_nil x)
  | cons c t =>
    injection ha with ha'
    subst ha'
    rcases List.mem_cons.mp hx with rfl | hx'
    · exact Nat.le_refl _
    · exact List.rel_of_sorted_cons hs x hx'

/-- C7: the statistics time range is the minimum and maximum timestamp of
the (possibly empty) filtered record list — both `none` for an empty list,
with no failure. -/
theorem stats_time_range (logs : List LogEntry) :
    (computeStats logs).earliest = (logs.map (fun e => e.timestamp)).min? ∧
    (computeStats logs).latest = (logs.map (fun e => e.timestamp)).max? := by
  cases hemp : logs.isEmpty with
  | true =>
    have : logs = [] := List.isEmpty_iff.mp hemp
    subst this
    exact ⟨rfl, rfl⟩
  | false =>
    have hne : logs ≠ [] := by
      intro h
      subst h
      exact Bool.noConfusion hemp
    have hsort : (logs.insertionSort timeLe).Sorted timeLe :=
      List.sorted_insertionSort timeLe logs
    have hperm : List.Perm (logs.insertionSort timeLe) logs :=
      List.perm_insertionSort timeLe logs
    have hsne : logs.insertionSort timeLe ≠ [] := by
      intro h
      exact hne ((h ▸ hperm).symm.eq_nil)
    have hE : (computeStats logs).earliest =
        (logs.insertionSort timeLe).head?.map (fun e => e.timestamp) := by
      unfold computeStats
      simp only [hemp]
      rfl
    have hL : (computeStats logs).latest =
        (logs.insertionSort timeLe).getLast?.map (fun e => e.timestamp) := by
      unfold computeStats
      simp only [hemp]
      rfl
    obtain ⟨a, t, hat⟩ : ∃ a t, logs.insertionSort timeLe = a :: t := by
      cases hs : logs.insertionSort timeLe with
      | nil => exact absurd hs hsne
      | cons a t => exact ⟨a, t, rfl⟩
    have hahead : (logs.insertionSort timeLe).head? = some a := by
      rw [hat]
      rfl
    obtain ⟨b, hblast⟩ : ∃ b, (logs.insertionSort timeLe).getLast? = some b := by
      rw [hat]
      exact ⟨(a :: t).getLast (by simp), List.getLast?_eq_getLast _ _⟩
    constructor
    · rw [hE, hahead, Option.map_some']
      symm
      rw [List.min?_eq_some_iff']
      constructor
      · exact List.mem_map_of_mem (fun e => e.timestamp)
          (hperm.mem_iff.mp (hat ▸ List.mem_cons_self a t))
      · intro v hv
        rcases List.mem_map.mp hv with ⟨x, hx, rfl⟩
        exact sorted_head?_le hsort (hperm.mem_iff.mpr hx) hahead
    · rw [hL, hblast, Option.map_some']
      symm
      rw [List.max?_eq_some_iff']
      constructor
      · have hbmem : b ∈ logs.insertionSort timeLe := by
          rw [hat] at hblast ⊢
          rw [List.getLast?_eq_getLast _ (by simp)] at hblast
          injection hblast with hb'
          rw [← hb']
          exact List.getLast_mem _
        exact List.mem_map_of_mem (fun e => e.timestamp) (hperm.mem_iff.mp hbmem)
      · intro v hv
        rcases List.mem_map.mp hv with ⟨x, hx, rfl⟩
        exact sorted_le_getLast? hsort x (hperm.mem_iff.mpr hx) hblast

end LogAnalyzer
